import Mathlib

/-!
Shallow embedding of the retrieval-and-answer subsystem of the repository
(`faiss_indexer.py` and `rag_qa.py`), together with proofs of the spec's
testable properties.

Modelling conventions:
* Similarity scores and thresholds are rationals (`ℚ`); the source uses
  Python floats, and every property at issue is order-theoretic.
* The FAISS index proper is abstracted to its dimension and vector count
  (`ntotal`); the raw nearest-neighbour computation is an external numeric
  collaborator, so `search` takes the list of `(faiss_id, score)` hits
  returned by `index.search` as an explicit argument.
* Python dicts are association lists with first-match lookup and
  overwrite-or-append assignment (`dictGet` / `dictSet`).
* Python exceptions that can escape the functions under study are modelled
  with `Except PyErr`; the JSON (de)serialisation layer of the standard
  library is an external collaborator, so the snapshot files hold the
  already-decoded values and `json.loads` of the model response is an
  explicit `String → Option Json` argument.
-/

/-- Python exceptions that can escape the modelled functions. -/
inductive PyErr where
  | valueError
  | runtimeError
  | fileNotFound
  | attributeError
  | typeError
  | indexError
  deriving DecidableEq, Repr

/-- A Python JSON value, as produced by `json.loads`. -/
inductive Json where
  | null
  | bool (b : Bool)
  | num (q : ℚ)
  | str (s : String)
  | arr (elems : List Json)
  | obj (fields : List (String × Json))

/-- Python dict lookup: first entry with the given key. -/
def dictGet {α β : Type} [DecidableEq α] (l : List (α × β)) (k : α) : Option β :=
  (l.find? (fun p => p.1 = k)).map (·.2)

/-- Python dict assignment `d[k] = v`: overwrite the existing entry, else append. -/
def dictSet {α β : Type} [DecidableEq α] (l : List (α × β)) (k : α) (v : β) :
    List (α × β) :=
  if l.any (fun p => p.1 = k) then
    l.map (fun p => if p.1 = k then (k, v) else p)
  else
    l ++ [(k, v)]

/-- Python list indexing `l[i]` with negative-index semantics; `none` is an
`IndexError`. -/
def pyListGet {α : Type} (l : List α) (i : Int) : Option α :=
  if 0 ≤ i then l.get? i.toNat
  else if 0 ≤ (l.length : Int) + i then l.get? ((l.length : Int) + i).toNat
  else none

/-- Python `round` (banker's rounding, half to even) on an exact rational. -/
def pyRound (x : ℚ) : ℤ :=
  let f : ℤ := ⌊x⌋
  let frac : ℚ := x - f
  if frac < 1/2 then f
  else if 1/2 < frac then f + 1
  else if f % 2 = 0 then f else f + 1

/-- `round(score, 4)` from `search` / `search_with_chunks`. -/
def round4 (x : ℚ) : ℚ := (pyRound (x * 10000) : ℚ) / 10000

/-- A text fragment record (`chunk` dict): `chunk_id`, `text`, `metadata`. -/
structure Chunk where
  chunk_id : String
  text : String
  metadata : List (String × String)
  deriving DecidableEq, Repr

/-- `EmbeddingConfig` from `faiss_indexer.py`. -/
structure EmbeddingConfig where
  model_name : String := "text-embedding-v3"
  dimension : Nat := 1024
  normalize : Bool := true
  batch_size : Nat := 10
  api_base_url : String := "https://dashscope.aliyuncs.com/compatible-mode/v1"
  deriving DecidableEq, Repr

/-- `IndexConfig` from `faiss_indexer.py` (file names elided: the snapshot
directory is modelled as one record with a slot per artifact). -/
structure IndexConfig where
  index_type : String := "IndexFlatIP"
  index_dir : String := "faiss_store"
  deriving DecidableEq, Repr

/-- The FAISS flat index, abstracted to dimension and stored-vector count. -/
structure FaissIndex where
  dim : Nat
  ntotal : Nat
  deriving DecidableEq, Repr

/-- Runtime state of `FAISSIndexer`. -/
structure IndexerState where
  embedding_config : EmbeddingConfig := {}
  index_config : IndexConfig := {}
  index : Option FaissIndex := none
  chunks : List Chunk := []
  id_map : List (Int × String) := []
  reverse_id_map : List (String × Int) := []
  next_faiss_id : Int := 0
  deriving DecidableEq, Repr

/-- One entry of the result of `FAISSIndexer.search`. -/
structure SearchHit where
  chunk_id : String
  score : ℚ
  deriving DecidableEq, Repr

/-- One entry of the result of `FAISSIndexer.search_with_chunks`. -/
structure RChunk where
  chunk_id : String
  score : ℚ
  text : String
  metadata : List (String × String)
  deriving DecidableEq, Repr

/-- The guard `score_threshold is not None and score < score_threshold`
shared by both retrieval loops. -/
def thBelow (th : Option ℚ) (score : ℚ) : Bool :=
  match th with
  | some t => decide (score < t)
  | none => false

/-- The result-building loop of `FAISSIndexer.search`: skip the `-1`
sentinel, skip scores strictly below the threshold, look the position up in
`id_map` and keep the hit only when the mapped `chunk_id` is truthy. -/
def searchFilter (idm : List (Int × String)) (th : Option ℚ) :
    List (Int × ℚ) → List SearchHit
  | [] => []
  | (fid, score) :: rest =>
    if fid = -1 then searchFilter idm th rest
    else if thBelow th score then searchFilter idm th rest
    else
      match dictGet idm fid with
      | some cid =>
          if cid ≠ "" then ⟨cid, round4 score⟩ :: searchFilter idm th rest
          else searchFilter idm th rest
      | none => searchFilter idm th rest

/-- `FAISSIndexer.search`: raises `RuntimeError` when the index is not
initialised; `hits` is the `(faiss_id, score)` list produced by the
underlying `index.search(query_embedding, top_k)` call. -/
def search (st : IndexerState) (hits : List (Int × ℚ)) (th : Option ℚ) :
    Except PyErr (List SearchHit) :=
  match st.index with
  | none => .error .runtimeError
  | some _ => .ok (searchFilter st.id_map th hits)

/-- The result-building loop of `FAISSIndexer.search_with_chunks`: same
skipping as `search`, and additionally requires `faiss_id < len(chunks)`
before indexing into the chunk list (`none` from `pyListGet` is an
uncaught `IndexError`). -/
def searchChunksFilter (idm : List (Int × String)) (chunks : List Chunk)
    (th : Option ℚ) : List (Int × ℚ) → Except PyErr (List RChunk)
  | [] => .ok []
  | (fid, score) :: rest =>
    if fid = -1 then searchChunksFilter idm chunks th rest
    else if thBelow th score then searchChunksFilter idm chunks th rest
    else
      match dictGet idm fid with
      | some cid =>
          if cid ≠ "" ∧ fid < (chunks.length : Int) then
            match pyListGet chunks fid with
            | some c =>
                (searchChunksFilter idm chunks th rest).map
                  (fun rs => ⟨cid, round4 score, c.text, c.metadata⟩ :: rs)
            | none => .error .indexError
          else searchChunksFilter idm chunks th rest
      | none => searchChunksFilter idm chunks th rest

/-- `FAISSIndexer.search_with_chunks`. -/
def searchWithChunks (st : IndexerState) (hits : List (Int × ℚ))
    (th : Option ℚ) : Except PyErr (List RChunk) :=
  match st.index with
  | none => .error .runtimeError
  | some _ => searchChunksFilter st.id_map st.chunks th hits

/-- The ID-mapping loops of `build_index` (from position `0`) and
`add_chunks` (from position `next_faiss_id`): for each chunk in order,
`id_map[next] = chunk_id`, `reverse_id_map[chunk_id] = next`, `next += 1`. -/
def insertEntries (idm : List (Int × String)) (rev : List (String × Int))
    (next : Int) : List Chunk → List (Int × String) × List (String × Int) × Int
  | [] => (idm, rev, next)
  | c :: cs =>
      insertEntries (dictSet idm next c.chunk_id) (dictSet rev c.chunk_id next)
        (next + 1) cs

/-- `FAISSIndexer.build_index`: rejects an empty chunk list (`ValueError`),
embeds the texts (external; the resulting vector dimension is the `dim`
argument), creates a fresh flat index holding one vector per chunk, and
rebuilds both ID maps from scratch. -/
def buildIndex (st : IndexerState) (chunks : List Chunk) (dim : Nat) :
    Except PyErr IndexerState :=
  if chunks.isEmpty then .error .valueError
  else
    let maps := insertEntries [] [] 0 chunks
    .ok { st with
          index := some ⟨dim, chunks.length⟩
          chunks := chunks
          id_map := maps.1
          reverse_id_map := maps.2.1
          next_faiss_id := maps.2.2 }

/-- `FAISSIndexer.add_chunks`: `RuntimeError` when the index is not
initialised, no-op on an empty list, otherwise appends one vector per chunk
to the index and extends the ID maps from the current `next_faiss_id`. -/
def addChunks (st : IndexerState) (chunks : List Chunk) :
    Except PyErr IndexerState :=
  match st.index with
  | none => .error .runtimeError
  | some idx =>
    if chunks.isEmpty then .ok st
    else
      let maps := insertEntries st.id_map st.reverse_id_map st.next_faiss_id chunks
      .ok { st with
            index := some ⟨idx.dim, idx.ntotal + chunks.length⟩
            chunks := st.chunks ++ chunks
            id_map := maps.1
            reverse_id_map := maps.2.1
            next_faiss_id := maps.2.2 }

/-- Content of the persisted `id_map.json` artifact. The JSON layer encodes
forward keys as decimal strings (`str(k)` on save, `int(k)` on load); that
invertible encoding is left to the external serialiser. -/
structure IdMapFile where
  faiss_to_chunk : List (Int × String)
  chunk_to_faiss : List (String × Int)
  next_faiss_id : Int
  deriving DecidableEq, Repr

/-- Content of the persisted `embedding_meta.json` artifact. -/
structure MetaFile where
  model_name : String
  dimension : Nat
  normalize : Bool
  index_type : String
  total_vectors : Nat
  created_at : String
  api_base_url : String
  deriving DecidableEq, Repr

/-- The snapshot directory: one slot per artifact file (`none` = the file
does not exist). `chunks.jsonl` holds its records already JSON-decoded. -/
structure SnapshotDir where
  indexFile : Option FaissIndex := none
  chunksFile : Option (List Chunk) := none
  idMapFile : Option IdMapFile := none
  metaFile : Option MetaFile := none
  deriving DecidableEq, Repr

/-- The `k`-th write performed by `save_index` (`k = 0..3`), in source
order: FAISS index, chunks, ID maps, embedding metadata. Each write goes
directly to the artifact's final path. `now` is the wall-clock timestamp
taken for `created_at`. -/
def saveWrite (st : IndexerState) (now : String) (dir : SnapshotDir) :
    Nat → SnapshotDir
  | 0 => { dir with indexFile := st.index }
  | 1 => { dir with chunksFile := some st.chunks }
  | 2 =>
    let im : IdMapFile := ⟨st.id_map, st.reverse_id_map, st.next_faiss_id⟩
    { dir with idMapFile := some im }
  | 3 =>
    let m : MetaFile :=
      ⟨st.embedding_config.model_name, st.embedding_config.dimension,
        st.embedding_config.normalize, st.index_config.index_type,
        (st.index.map FaissIndex.ntotal).getD 0, now,
        st.embedding_config.api_base_url⟩
    { dir with metaFile := some m }
  | _ => dir

/-- The first `k` writes of `save_index`, applied in order; `k = 4` is a
completed save, `k < 4` a save interrupted by a failure partway. -/
def saveUpTo (st : IndexerState) (now : String) (dir : SnapshotDir) :
    Nat → SnapshotDir
  | 0 => dir
  | k + 1 => saveWrite st now (saveUpTo st now dir k) k

/-- `FAISSIndexer.save_index`: `RuntimeError` when the index is not
initialised, otherwise the four artifact writes in order. -/
def saveIndex (st : IndexerState) (now : String) (dir : SnapshotDir) :
    Except PyErr SnapshotDir :=
  match st.index with
  | none => .error .runtimeError
  | some _ => .ok (saveUpTo st now dir 4)

/-- `FAISSIndexer.load_index`: `FileNotFoundError` when an artifact file is
missing (the index file by the explicit check, the others from `open`),
otherwise replace the runtime state wholesale with the file contents. The
model-name comparison against `embedding_meta.json` only prints a warning,
and no count agreement between the artifacts is checked. -/
def loadIndex (st : IndexerState) (dir : SnapshotDir) :
    Except PyErr IndexerState :=
  match dir.indexFile with
  | none => .error .fileNotFound
  | some idx =>
    match dir.chunksFile with
    | none => .error .fileNotFound
    | some cs =>
      match dir.idMapFile with
      | none => .error .fileNotFound
      | some im =>
        match dir.metaFile with
        | none => .error .fileNotFound
        | some _ =>
          .ok { st with
                index := some idx
                chunks := cs
                id_map := im.faiss_to_chunk
                reverse_id_map := im.chunk_to_faiss
                next_faiss_id := im.next_faiss_id }

/-- `RAGConfig` from `rag_qa.py`. -/
structure RAGConfig where
  top_k : Nat := 5
  min_chunks : Nat := 3
  max_chunks : Nat := 5
  score_threshold : ℚ := 35/100
  deriving DecidableEq, Repr

/-- `RAG_SYSTEM_PROMPT` from `rag_qa.py`. -/
def ragSystemPrompt : String :=
  "你是一个严谨的问答助手，必须严格根据提供的参考资料回答问题。\n\n【核心规则 - 必须遵守】\n1. 每个结论必须至少引用一个资料编号（如 [chunk_0001]）\n2. 禁止出现任何未引用资料的判断或结论\n3. 禁止使用\"综合来看\"、\"通常情况下\"、\"一般而言\"等泛化表述\n4. 如果资料不足以回答，必须明确说明\"根据现有资料无法确定\"\n5. 回答必须精准、具体，直接指向资料内容\n\n【回答格式要求】\n- 使用 JSON 格式输出\n- 必须包含 answer（回答内容）和 citations（引用的资料ID列表）\n- citations 中只能包含实际引用过的资料ID\n- 回答中的每个要点后面必须标注 [资料ID]"

/-- `RAG_USER_PROMPT_TEMPLATE.format(context=..., question=...)` from
`rag_qa.py` (literal braces written with hex escapes). -/
def ragUserPrompt (context question : String) : String :=
  "【参考资料】\n" ++ context ++ "\n\n【用户问题】\n" ++ question ++
    "\n\n请严格根据上述参考资料回答问题。要求：\n1. 每个结论后必须标注引用来源，格式：[chunk_xxx]\n2. 只使用提供的资料，不要添加任何资料外的信息\n3. 以 JSON 格式输出，包含 answer 和 citations 字段\n\n输出格式示例：\n\x7b\n    \"answer\": \"根据规定，xxx [chunk_0001]。具体要求是 xxx [chunk_0002]。\",\n    \"citations\": [\"chunk_0001\", \"chunk_0002\"]\n\x7d"

/-- One entry of the `sources` list built by
`RAGEngine._parse_and_validate_response`. -/
structure Source where
  chunk_id : String
  score : ℚ
  text : String
  metadata : List (String × String)

/-- The dict returned by `RAGEngine.ask` /
`RAGEngine._parse_and_validate_response`. `answer` is whatever Python value
ended up under the `"answer"` key, hence a `Json`. -/
structure QAResult where
  answer : Json
  citations : List Json
  sources : List Source
  has_context : Bool

/-- `NO_CONTEXT_RESPONSE` merged with `sources = []`, `has_context = False`,
as returned by `ask` when retrieval comes back empty. -/
def noContextResult : QAResult :=
  ⟨.str "抱歉，根据现有资料无法找到与您问题相关的内容。请尝试换个方式提问，或者提供更多细节。",
    [], [], false⟩

/-- The code-fence stripping at the top of
`_parse_and_validate_response`. -/
def stripFences (raw : String) : String :=
  let c := raw.trim
  let c := if c.startsWith "```json" then c.drop 7 else c
  let c := if c.startsWith "```" then c.drop 3 else c
  let c := if c.endsWith "```" then c.dropRight 3 else c
  c.trim

/-- Python `==` between an arbitrary value and a `str` (as used by
`cid in available_chunk_ids` and `chunk_id in valid_citations`). -/
def pyEqStr (j : Json) (s : String) : Bool :=
  match j with
  | .str t => t == s
  | _ => false

/-- Python iteration over an arbitrary value: lists yield their elements,
strings their characters, dicts their keys; anything else raises
`TypeError` (`none`). -/
def pyIter : Json → Option (List Json)
  | .arr l => some l
  | .str s => some (s.data.map (fun ch => Json.str (String.mk [ch])))
  | .obj fs => some (fs.map (fun p => Json.str p.1))
  | _ => none

/-- Python hashability, needed by `set(citations)`: lists and dicts are
unhashable. -/
def pyHashable : Json → Bool
  | .arr _ => false
  | .obj _ => false
  | _ => true

/-- The `text[:200] + "..."` preview truncation used for `sources`. -/
def truncPreview (s : String) : String :=
  if s.length > 200 then (s.take 200).append "..." else s

/-- `RAGEngine._parse_and_validate_response`. Only `json.JSONDecodeError`
is caught (`decode` returning `none`); a response that decodes to a
non-object raises `AttributeError` at `parsed.get`, a non-iterable
`citations` value raises `TypeError` in the list comprehension, and an
unhashable citation element raises `TypeError` at `set(citations)`. -/
def parseAndValidateResponse (decode : String → Option Json) (raw : String)
    (available_chunk_ids : List String) (retrieved_chunks : List RChunk) :
    Except PyErr QAResult :=
  let clean := stripFences raw
  let step : Except PyErr (Json × List Json) :=
    match decode clean with
    | none => .ok (.str raw, [])
    | some (.obj fields) =>
      let answer := (dictGet fields "answer").getD (.str "")
      let citationsVal := (dictGet fields "citations").getD (.arr [])
      match pyIter citationsVal with
      | some cs => .ok (answer, cs)
      | none => .error .typeError
    | some _ => .error .attributeError
  match step with
  | .error e => .error e
  | .ok (answer, citations) =>
    let valid_citations :=
      citations.filter (fun cid => available_chunk_ids.any (fun s => pyEqStr cid s))
    if citations.any (fun c => !pyHashable c) then .error .typeError
    else
      let sources :=
        (retrieved_chunks.filter
          (fun c => valid_citations.any (fun v => pyEqStr v c.chunk_id))).map
          (fun c => Source.mk c.chunk_id c.score (truncPreview c.text) c.metadata)
      .ok ⟨answer, valid_citations, sources, true⟩

/-- `RAGEngine._retrieve_chunks`: threshold-filtered retrieval, truncated
to `max_chunks` when longer. -/
def retrieveChunks (st : IndexerState) (hits : List (Int × ℚ))
    (cfg : RAGConfig) : Except PyErr (List RChunk) :=
  match searchWithChunks st hits (some cfg.score_threshold) with
  | .error e => .error e
  | .ok results =>
      .ok (if results.length > cfg.max_chunks then results.take cfg.max_chunks
           else results)

/-- `RAGEngine._build_context` (the rational-to-text rendering of the score
stands in for Python float formatting). -/
def buildContext (chunks : List RChunk) : String :=
  String.intercalate "\n\n---\n\n" (chunks.map (fun c =>
    let title := (dictGet c.metadata "title").getD ""
    let header := "[" ++ c.chunk_id ++ "] (相关度: " ++ toString c.score ++ ")"
    let header := if title ≠ "" then header ++ " " ++ title else header
    header ++ "\n" ++ c.text))

/-- `RAGEngine.ask`. `hits` is the raw FAISS answer for this question's
embedding, `llm` the chat-completion collaborator, `decode` the JSON
decoder. Returns the result dict paired with the number of language-model
generation calls performed. -/
def ask (st : IndexerState) (hits : List (Int × ℚ))
    (llm : List (String × String) → String) (decode : String → Option Json)
    (question : String) (cfg : RAGConfig) : Except PyErr (QAResult × Nat) :=
  match retrieveChunks st hits cfg with
  | .error e => .error e
  | .ok retrieved =>
    if retrieved.isEmpty then .ok (noContextResult, 0)
    else
      let context := buildContext retrieved
      let available_chunk_ids := retrieved.map (·.chunk_id)
      let messages :=
        [("system", ragSystemPrompt), ("user", ragUserPrompt context question)]
      let raw := llm messages
      match parseAndValidateResponse decode raw available_chunk_ids retrieved with
      | .error e => .error e
      | .ok r => .ok (r, 1)

/-! ## Helper lemmas about the Python-dict model -/

theorem dictGet_nil {α β : Type} [DecidableEq α] (k : α) :
    dictGet ([] : List (α × β)) k = none := rfl

theorem dictGet_cons {α β : Type} [DecidableEq α] (k k' : α) (v : β)
    (l : List (α × β)) :
    dictGet ((k, v) :: l) k' = if k' = k then some v else dictGet l k' := by
  by_cases h : k' = k
  · simp [dictGet, List.find?, h]
  · simp [dictGet, List.find?, h, Ne.symm h]

theorem dictSet_fresh {α β : Type} [DecidableEq α] (l : List (α × β)) (k : α)
    (v : β) (h : ∀ p ∈ l, p.1 ≠ k) : dictSet l k v = l ++ [(k, v)] := by
  have hany : l.any (fun p => p.1 = k) = false := by
    rw [List.any_eq_false]
    intro p hp
    simp [h p hp]
  simp [dictSet, hany]

/-- A hit that `search`'s loop keeps whenever it clears the threshold:
not the `-1` sentinel, and mapped to a truthy `chunk_id`. -/
def validHit (idm : List (Int × String)) (h : Int × ℚ) : Bool :=
  decide (h.1 ≠ -1) &&
    (match dictGet idm h.1 with
     | some cid => cid ≠ ""
     | none => false)

/-! ## Threshold filtering (C7, C8) -/

theorem searchFilter_cons (idm : List (Int × String)) (th : Option ℚ)
    (fid : Int) (score : ℚ) (rest : List (Int × ℚ)) :
    searchFilter idm th ((fid, score) :: rest) =
      if fid = -1 then searchFilter idm th rest
      else if thBelow th score then searchFilter idm th rest
      else
        match dictGet idm fid with
        | some cid =>
            if cid ≠ "" then ⟨cid, round4 score⟩ :: searchFilter idm th rest
            else searchFilter idm th rest
        | none => searchFilter idm th rest := rfl

theorem searchFilter_eq_filter_map (idm : List (Int × String)) (t : ℚ)
    (hits : List (Int × ℚ)) (hv : ∀ h ∈ hits, validHit idm h = true) :
    searchFilter idm (some t) hits =
      (hits.filter (fun h => decide (t ≤ h.2))).map
        (fun h => ⟨(dictGet idm h.1).getD "", round4 h.2⟩) := by
  induction hits with
  | nil => simp [searchFilter]
  | cons h rest ih =>
    obtain ⟨fid, score⟩ := h
    have hvh := hv (fid, score) (by simp)
    have hvrest : ∀ h ∈ rest, validHit idm h = true := fun h hm => hv h (by simp [hm])
    simp only [validHit, Bool.and_eq_true, decide_eq_true_eq] at hvh
    obtain ⟨hfid, hmap⟩ := hvh
    rcases hcid : dictGet idm fid with _ | cid
    · simp only [hcid] at hmap
      exact absurd hmap (by simp)
    · simp only [hcid] at hmap
      have hcid' : cid ≠ "" := by simpa using hmap
      rcases lt_or_le score t with hlt | hle
      · rw [searchFilter_cons, if_neg hfid, if_pos (by simpa [thBelow] using hlt),
          List.filter_cons_of_neg (by simpa using not_le_of_lt hlt)]
        exact ih hvrest
      · rw [searchFilter_cons, if_neg hfid,
          if_neg (by simp [thBelow, not_lt_of_le hle]), hcid,
          List.filter_cons_of_pos (by simpa using hle), List.map_cons]
        simp only [hcid, Option.getD_some, if_pos hcid']
        exact congrArg _ (ih hvrest)

theorem searchFilter_all_below (idm : List (Int × String)) (t : ℚ)
    (hits : List (Int × ℚ)) (hb : ∀ h ∈ hits, h.1 = -1 ∨ h.2 < t) :
    searchFilter idm (some t) hits = [] := by
  induction hits with
  | nil => rfl
  | cons h rest ih =>
    obtain ⟨fid, score⟩ := h
    have hbrest : ∀ h ∈ rest, h.1 = -1 ∨ h.2 < t := fun h hm => hb h (by simp [hm])
    rcases hb (fid, score) (by simp) with hfid | hsc
    · rw [searchFilter_cons, if_pos hfid]
      exact ih hbrest
    · by_cases hfid : fid = -1
      · rw [searchFilter_cons, if_pos hfid]
        exact ih hbrest
      · rw [searchFilter_cons, if_neg hfid, if_pos (by simpa [thBelow] using hsc)]
        exact ih hbrest

theorem searchFilter_sublist_of_le (idm : List (Int × String)) (t1 t2 : ℚ)
    (hle : t1 ≤ t2) (hits : List (Int × ℚ)) :
    (searchFilter idm (some t2) hits).Sublist (searchFilter idm (some t1) hits) := by
  induction hits with
  | nil => simp [searchFilter]
  | cons h rest ih =>
    obtain ⟨fid, score⟩ := h
    by_cases hfid : fid = -1
    · rw [searchFilter_cons, searchFilter_cons, if_pos hfid, if_pos hfid]
      exact ih
    · rcases lt_or_le score t1 with h1 | h1
      · have h2 : score < t2 := lt_of_lt_of_le h1 hle
        rw [searchFilter_cons, searchFilter_cons, if_neg hfid, if_neg hfid,
          if_pos (by simpa [thBelow] using h2), if_pos (by simpa [thBelow] using h1)]
        exact ih
      · rcases lt_or_le score t2 with h2 | h2
        · rw [searchFilter_cons, searchFilter_cons, if_neg hfid, if_neg hfid,
            if_pos (by simpa [thBelow] using h2), if_neg (by simp [thBelow, not_lt_of_le h1])]
          rcases dictGet idm fid with _ | cid
          · exact ih
          · by_cases hcid : cid ≠ ""
            · simp only [if_pos hcid]
              exact ih.cons _
            · simp only [if_neg hcid]
              exact ih
        · rw [searchFilter_cons, searchFilter_cons, if_neg hfid, if_neg hfid,
            if_neg (by simp [thBelow, not_lt_of_le h2]), if_neg (by simp [thBelow, not_lt_of_le h1])]
          rcases dictGet idm fid with _ | cid
          · exact ih
          · by_cases hcid : cid ≠ ""
            · simp only [if_pos hcid]
              exact ih.cons₂ _
            · simp only [if_neg hcid]
              exact ih

theorem searchChunksFilter_cons (idm : List (Int × String)) (chunks : List Chunk)
    (th : Option ℚ) (fid : Int) (score : ℚ) (rest : List (Int × ℚ)) :
    searchChunksFilter idm chunks th ((fid, score) :: rest) =
      if fid = -1 then searchChunksFilter idm chunks th rest
      else if thBelow th score then searchChunksFilter idm chunks th rest
      else
        match dictGet idm fid with
        | some cid =>
            if cid ≠ "" ∧ fid < (chunks.length : Int) then
              match pyListGet chunks fid with
              | some c =>
                  (searchChunksFilter idm chunks th rest).map
                    (fun rs => ⟨cid, round4 score, c.text, c.metadata⟩ :: rs)
              | none => .error .indexError
            else searchChunksFilter idm chunks th rest
        | none => searchChunksFilter idm chunks th rest := rfl

theorem pyListGet_of_nonneg_lt {α : Type} (l : List α) (i : Int) (h0 : 0 ≤ i)
    (hlt : i < (l.length : Int)) : ∃ c, pyListGet l i = some c := by
  have hn : i.toNat < l.length := by omega
  refine ⟨l.get ⟨i.toNat, hn⟩, ?_⟩
  unfold pyListGet
  rw [if_pos h0]
  exact List.get?_eq_get hn

theorem searchChunksFilter_ok (idm : List (Int × String)) (chunks : List Chunk)
    (th : Option ℚ) (hits : List (Int × ℚ)) (hge : ∀ h ∈ hits, -1 ≤ h.1) :
    ∃ rs, searchChunksFilter idm chunks th hits = .ok rs ∧
      rs.length ≤ hits.length := by
  induction hits with
  | nil => exact ⟨[], rfl, le_refl _⟩
  | cons h rest ih =>
    obtain ⟨fid, score⟩ := h
    have hgerest : ∀ h ∈ rest, -1 ≤ h.1 := fun h hm => hge h (by simp [hm])
    obtain ⟨rs, hrs, hlen⟩ := ih hgerest
    by_cases hfid : fid = -1
    · refine ⟨rs, ?_, le_trans hlen (by simp)⟩
      rw [searchChunksFilter_cons, if_pos hfid]
      exact hrs
    · by_cases hth : thBelow th score = true
      · refine ⟨rs, ?_, le_trans hlen (by simp)⟩
        rw [searchChunksFilter_cons, if_neg hfid, if_pos hth]
        exact hrs
      · rcases hcid : dictGet idm fid with _ | cid
        · refine ⟨rs, ?_, le_trans hlen (by simp)⟩
          rw [searchChunksFilter_cons, if_neg hfid, if_neg hth]
          simp only [hcid]
          exact hrs
        · by_cases hkeep : cid ≠ "" ∧ fid < (chunks.length : Int)
          · have h0 : (0 : Int) ≤ fid := by
              have hm1 := hge (fid, score) (by simp)
              simp only at hm1
              omega
            obtain ⟨c, hc⟩ := pyListGet_of_nonneg_lt chunks fid h0 hkeep.2
            refine ⟨⟨cid, round4 score, c.text, c.metadata⟩ :: rs, ?_,
              by simpa using hlen⟩
            rw [searchChunksFilter_cons, if_neg hfid, if_neg hth]
            simp only [hcid, if_pos hkeep, hc, hrs, Except.map]
          · refine ⟨rs, ?_, le_trans hlen (by simp)⟩
            rw [searchChunksFilter_cons, if_neg hfid, if_neg hth]
            simp only [hcid, if_neg hkeep]
            exact hrs

theorem searchChunksFilter_all_skipped (idm : List (Int × String))
    (chunks : List Chunk) (t : ℚ) (hits : List (Int × ℚ))
    (hb : ∀ h ∈ hits, h.1 = -1 ∨ h.2 < t) :
    searchChunksFilter idm chunks (some t) hits = .ok [] := by
  induction hits with
  | nil => rfl
  | cons h rest ih =>
    obtain ⟨fid, score⟩ := h
    have hbrest : ∀ h ∈ rest, h.1 = -1 ∨ h.2 < t := fun h hm => hb h (by simp [hm])
    rcases hb (fid, score) (by simp) with hfid | hsc
    · rw [searchChunksFilter_cons, if_pos hfid]
      exact ih hbrest
    · by_cases hfid : fid = -1
      · rw [searchChunksFilter_cons, if_pos hfid]
        exact ih hbrest
      · rw [searchChunksFilter_cons, if_neg hfid, if_pos (by simpa [thBelow] using hsc)]
        exact ih hbrest

/-- Claim C7: with a score threshold, `search`'s loop drops exactly the
candidates scoring strictly below the threshold (one scoring exactly the
threshold is kept), in the established order; `_retrieve_chunks` truncates
a longer-than-`max_chunks` result to its first `max_chunks` entries; and
when nothing clears the threshold the result is the empty list, not an
error. -/
theorem c7_threshold_exclusion_truncation_empty :
    (∀ (idm : List (Int × String)) (t : ℚ) (hits : List (Int × ℚ)),
      (∀ h ∈ hits, validHit idm h = true) →
      searchFilter idm (some t) hits =
        (hits.filter (fun h => decide (t ≤ h.2))).map
          (fun h => ⟨(dictGet idm h.1).getD "", round4 h.2⟩)) ∧
    (∀ (st : IndexerState) (hits : List (Int × ℚ)) (cfg : RAGConfig)
      (rs : List RChunk),
      searchWithChunks st hits (some cfg.score_threshold) = .ok rs →
      retrieveChunks st hits cfg = .ok (rs.take cfg.max_chunks)) ∧
    (∀ (st : IndexerState) (idx : FaissIndex) (hits : List (Int × ℚ)) (t : ℚ),
      st.index = some idx → (∀ h ∈ hits, h.2 < t) →
      search st hits (some t) = .ok []) := by
  refine ⟨searchFilter_eq_filter_map, ?_, ?_⟩
  · intro st hits cfg rs hok
    unfold retrieveChunks
    simp only [hok]
    by_cases hlen : rs.length > cfg.max_chunks
    · rw [if_pos hlen]
    · rw [if_neg hlen, List.take_of_length_le (le_of_not_lt hlen)]
  · intro st idx hits t hidx hb
    unfold search
    rw [hidx]
    rw [searchFilter_all_below st.id_map t hits (fun h hm => Or.inr (hb h hm))]

/-- Claim C8: at a higher threshold the retrieval result is a subset (in
fact a sublist) of the result at a lower threshold, for the same query
(same raw FAISS hits) and `top_k`. -/
theorem c8_threshold_monotone :
    ∀ (st : IndexerState) (hits : List (Int × ℚ)) (t1 t2 : ℚ)
      (rs1 rs2 : List SearchHit),
      t1 < t2 →
      search st hits (some t1) = .ok rs1 →
      search st hits (some t2) = .ok rs2 →
      ∀ r ∈ rs2, r ∈ rs1 := by
  intro st hits t1 t2 rs1 rs2 hlt h1 h2 r hr
  unfold search at h1 h2
  rcases hidx : st.index with _ | idx
  · rw [hidx] at h1
    exact absurd h1 (by simp)
  · rw [hidx] at h1 h2
    have e1 : searchFilter st.id_map (some t1) hits = rs1 := by simpa using h1
    have e2 : searchFilter st.id_map (some t2) hits = rs2 := by simpa using h2
    rw [← e1]
    rw [← e2] at hr
    exact (searchFilter_sublist_of_le st.id_map t1 t2 (le_of_lt hlt) hits).subset hr

/-! ## No-context questions (C3) and hit-skipping safety (C10) -/

/-- Claim C3: when every FAISS hit is either the `-1` sentinel or scores
strictly below the configured threshold (empty corpus or nothing clearing
the threshold), `ask` returns the fixed no-context answer — empty
citations, empty sources, `has_context = false` — and performs zero
language-model generation calls. -/
theorem c3_no_context_no_generation :
    ∀ (st : IndexerState) (idx : FaissIndex) (hits : List (Int × ℚ))
      (llm : List (String × String) → String) (decode : String → Option Json)
      (question : String) (cfg : RAGConfig),
      st.index = some idx →
      (∀ h ∈ hits, h.1 = -1 ∨ h.2 < cfg.score_threshold) →
      ask st hits llm decode question cfg = .ok (noContextResult, 0) := by
  intro st idx hits llm decode question cfg hidx hb
  have hsw : searchWithChunks st hits (some cfg.score_threshold) = .ok [] := by
    unfold searchWithChunks
    rw [hidx]
    exact searchChunksFilter_all_skipped st.id_map st.chunks cfg.score_threshold hits hb
  have hrc : retrieveChunks st hits cfg = .ok [] := by
    unfold retrieveChunks
    simp [hsw]
  unfold ask
  simp [hrc]

/-- Claim C10: on an initialised index, with hits in FAISS's output range
(`faiss_id ≥ -1`), `search` and `search_with_chunks` never raise on a
returned hit: sentinel, unmapped, empty-mapped and out-of-range positions
are silently skipped, so the result may be shorter than the hit list (and
an all-sentinel answer — the empty loaded index — yields the empty list,
not an error). -/
theorem c10_invalid_hits_skipped :
    ∀ (st : IndexerState) (idx : FaissIndex) (hits : List (Int × ℚ))
      (th : Option ℚ),
      st.index = some idx →
      (∀ h ∈ hits, -1 ≤ h.1) →
      (∃ rs, search st hits th = .ok rs ∧ rs.length ≤ hits.length) ∧
      (∃ rs, searchWithChunks st hits th = .ok rs ∧ rs.length ≤ hits.length) ∧
      ((∀ h ∈ hits, h.1 = -1) →
        search st hits th = .ok [] ∧ searchWithChunks st hits th = .ok []) := by
  intro st idx hits th hidx hge
  refine ⟨?_, ?_, ?_⟩
  · refine ⟨searchFilter st.id_map th hits, ?_, ?_⟩
    · unfold search
      rw [hidx]
    · induction hits with
      | nil => simp [searchFilter]
      | cons h rest ih =>
        obtain ⟨fid, score⟩ := h
        by_cases hfid : fid = -1
        · rw [searchFilter_cons, if_pos hfid]
          exact le_trans (ih (fun h hm => hge h (by simp [hm]))) (by simp)
        · by_cases hth : thBelow th score = true
          · rw [searchFilter_cons, if_neg hfid, if_pos hth]
            exact le_trans (ih (fun h hm => hge h (by simp [hm]))) (by simp)
          · rw [searchFilter_cons, if_neg hfid, if_neg hth]
            rcases dictGet st.id_map fid with _ | cid
            · exact le_trans (ih (fun h hm => hge h (by simp [hm]))) (by simp)
            · by_cases hcid : cid ≠ ""
              · simp only [if_pos hcid, List.length_cons]
                exact Nat.succ_le_succ (ih (fun h hm => hge h (by simp [hm])))
              · simp only [if_neg hcid]
                exact le_trans (ih (fun h hm => hge h (by simp [hm]))) (by simp)
  · obtain ⟨rs, hrs, hlen⟩ := searchChunksFilter_ok st.id_map st.chunks th hits hge
    refine ⟨rs, ?_, hlen⟩
    unfold searchWithChunks
    rw [hidx]
    exact hrs
  · intro hall
    constructor
    · unfold search
      rw [hidx]
      have : searchFilter st.id_map th hits = [] := by
        induction hits with
        | nil => rfl
        | cons h rest ih =>
          obtain ⟨fid, score⟩ := h
          rw [searchFilter_cons, if_pos (hall (fid, score) (by simp))]
          exact ih (fun h hm => hge h (by simp [hm])) (fun h hm => hall h (by simp [hm]))
      rw [this]
    · unfold searchWithChunks
      rw [hidx]
      induction hits with
      | nil => rfl
      | cons h rest ih =>
        obtain ⟨fid, score⟩ := h
        rw [searchChunksFilter_cons, if_pos (hall (fid, score) (by simp))]
        exact ih (fun h hm => hge h (by simp [hm])) (fun h hm => hall h (by simp [hm]))

/-! ## Dense positions and the identity-map bijection (C4) -/

/-- The forward entries produced by the ID-mapping loop started at
position `n`: `(n, id₀), (n+1, id₁), …`. -/
def enumIdsFrom : Int → List Chunk → List (Int × String)
  | _, [] => []
  | n, c :: cs => (n, c.chunk_id) :: enumIdsFrom (n + 1) cs

/-- The reverse entries produced by the ID-mapping loop started at
position `n`. -/
def revIdsFrom : Int → List Chunk → List (String × Int)
  | _, [] => []
  | n, c :: cs => (c.chunk_id, n) :: revIdsFrom (n + 1) cs

theorem enumIdsFrom_keys (cs : List Chunk) : ∀ n : Int,
    (enumIdsFrom n cs).map Prod.fst =
      (List.range cs.length).map (fun i : ℕ => n + (i : Int)) := by
  induction cs with
  | nil => intro n; simp [enumIdsFrom]
  | cons c cs ih =>
    intro n
    rw [enumIdsFrom, List.map_cons, ih (n + 1), List.length_cons,
      List.range_succ_eq_map, List.map_cons, List.map_map]
    refine congrArg₂ List.cons (by simp) ?_
    refine List.map_congr_left ?_
    intro i _
    simp only [Function.comp_apply]
    push_cast
    omega

theorem mem_enumIdsFrom (cs : List Chunk) : ∀ (n : Int) (p : Int × String),
    p ∈ enumIdsFrom n cs →
    n ≤ p.1 ∧ p.1 < n + cs.length ∧ p.2 ∈ cs.map Chunk.chunk_id := by
  induction cs with
  | nil => intro n p hp; simp [enumIdsFrom] at hp
  | cons c cs ih =>
    intro n p hp
    rw [enumIdsFrom] at hp
    rcases List.mem_cons.mp hp with hh | ht
    · subst hh
      refine ⟨le_refl _, ?_, by simp⟩
      simp only [List.length_cons]
      omega
    · obtain ⟨h1, h2, h3⟩ := ih (n + 1) p ht
      refine ⟨by omega, ?_, by simp [h3]⟩
      simp only [List.length_cons]
      omega

theorem mem_revIdsFrom (cs : List Chunk) : ∀ (n : Int) (q : String × Int),
    q ∈ revIdsFrom n cs → n ≤ q.2 ∧ q.1 ∈ cs.map Chunk.chunk_id := by
  induction cs with
  | nil => intro n q hq; simp [revIdsFrom] at hq
  | cons c cs ih =>
    intro n q hq
    rw [revIdsFrom] at hq
    rcases List.mem_cons.mp hq with hh | ht
    · subst hh
      exact ⟨le_refl _, by simp⟩
    · obtain ⟨h1, h2⟩ := ih (n + 1) q ht
      exact ⟨by omega, by simp [h2]⟩

theorem enumIdsFrom_append (xs ys : List Chunk) : ∀ n : Int,
    enumIdsFrom n (xs ++ ys) =
      enumIdsFrom n xs ++ enumIdsFrom (n + xs.length) ys := by
  induction xs with
  | nil => intro n; simp [enumIdsFrom]
  | cons x xs ih =>
    intro n
    have harg : n + 1 + (xs.length : Int) = n + ((x :: xs).length : Int) := by
      simp only [List.length_cons]
      push_cast
      omega
    rw [List.cons_append, enumIdsFrom, enumIdsFrom, ih (n + 1), harg,
      List.cons_append]

theorem revIdsFrom_append (xs ys : List Chunk) : ∀ n : Int,
    revIdsFrom n (xs ++ ys) =
      revIdsFrom n xs ++ revIdsFrom (n + xs.length) ys := by
  induction xs with
  | nil => intro n; simp [revIdsFrom]
  | cons x xs ih =>
    intro n
    have harg : n + 1 + (xs.length : Int) = n + ((x :: xs).length : Int) := by
      simp only [List.length_cons]
      push_cast
      omega
    rw [List.cons_append, revIdsFrom, revIdsFrom, ih (n + 1), harg,
      List.cons_append]

theorem dictGet_some_mem {α β : Type} [DecidableEq α] (l : List (α × β))
    (k : α) (v : β) (h : dictGet l k = some v) : (k, v) ∈ l := by
  unfold dictGet at h
  rcases hf : l.find? (fun p => p.1 = k) with _ | p
  · rw [hf] at h; exact absurd h (by simp)
  · rw [hf] at h
    have hp : p ∈ l := List.mem_of_find?_eq_some hf
    have hk : p.1 = k := by simpa using List.find?_some hf
    have hv : p.2 = v := by simpa using h
    have : (k, v) = p := by
      rw [← hk, ← hv]
    rw [this]
    exact hp

theorem insertEntries_eq (cs : List Chunk) :
    ∀ (idm : List (Int × String)) (rev : List (String × Int)) (n : Int),
    (∀ p ∈ idm, p.1 < n) →
    (∀ c ∈ cs, ∀ q ∈ rev, q.1 ≠ c.chunk_id) →
    (cs.map Chunk.chunk_id).Nodup →
    insertEntries idm rev n cs =
      (idm ++ enumIdsFrom n cs, rev ++ revIdsFrom n cs, n + cs.length) := by
  induction cs with
  | nil =>
    intro idm rev n _ _ _
    simp [insertEntries, enumIdsFrom, revIdsFrom]
  | cons c cs ih =>
    intro idm rev n hkeys hfresh hnodup
    have hnodup' : (c.chunk_id :: cs.map Chunk.chunk_id).Nodup := by simpa using hnodup
    obtain ⟨hnotin, hndtail⟩ := List.nodup_cons.mp hnodup'
    rw [insertEntries,
      dictSet_fresh idm n c.chunk_id (fun p hp => ne_of_lt (hkeys p hp)),
      dictSet_fresh rev c.chunk_id n
        (fun q hq => hfresh c (List.mem_cons_self c cs) q hq),
      ih (idm ++ [(n, c.chunk_id)]) (rev ++ [(c.chunk_id, n)]) (n + 1)
        ?_ ?_ hndtail]
    · rw [enumIdsFrom, revIdsFrom]
      refine congrArg₂ _ (by simp) (congrArg₂ _ (by simp) ?_)
      simp only [List.length_cons]
      omega
    · intro p hp
      rcases List.mem_append.mp hp with hl | hr
      · exact lt_trans (hkeys p hl) (by omega)
      · have hp' : p = (n, c.chunk_id) := by simpa using hr
        rw [hp']
        exact lt_add_one n
    · intro c' hc' q hq
      rcases List.mem_append.mp hq with hl | hr
      · exact hfresh c' (List.mem_cons_of_mem c hc') q hl
      · have hq' : q = (c.chunk_id, n) := by simpa using hr
        rw [hq']
        intro heq
        have heq' : c.chunk_id = c'.chunk_id := heq
        refine hnotin ?_
        rw [heq']
        exact List.mem_map_of_mem Chunk.chunk_id hc' 

theorem enum_rev_bijection (cs : List Chunk)
    (hnd : (cs.map Chunk.chunk_id).Nodup) : ∀ (n p : Int) (cid : String),
    dictGet (enumIdsFrom n cs) p = some cid ↔
      dictGet (revIdsFrom n cs) cid = some p := by
  induction cs with
  | nil =>
    intro n p cid
    simp [enumIdsFrom, revIdsFrom, dictGet_nil]
  | cons c cs ih =>
    intro n p cid
    have hnd' : (c.chunk_id :: cs.map Chunk.chunk_id).Nodup := by simpa using hnd
    obtain ⟨hnotin, hndtail⟩ := List.nodup_cons.mp hnd'
    rw [enumIdsFrom, revIdsFrom, dictGet_cons, dictGet_cons]
    by_cases hp : p = n
    · rw [if_pos hp]
      by_cases hcid : cid = c.chunk_id
      · rw [if_pos hcid]
        subst hp
        subst hcid
        simp
      · rw [if_neg hcid]
        constructor
        · intro h
          exact absurd (Option.some.inj h).symm hcid
        · intro h
          have hmem := dictGet_some_mem _ _ _ h
          have := (mem_revIdsFrom cs (n + 1) (cid, p) hmem).1
          omega
    · rw [if_neg hp]
      by_cases hcid : cid = c.chunk_id
      · rw [if_pos hcid]
        constructor
        · intro h
          have hmem := dictGet_some_mem _ _ _ h
          have := (mem_enumIdsFrom cs (n + 1) (p, cid) hmem).2.2
          rw [hcid] at this
          exact absurd this hnotin
        · intro h
          exact absurd (Option.some.inj h).symm hp
      · rw [if_neg hcid]
        exact ih hndtail (n + 1) p cid

/-- The structural shape of a `FAISSIndexer` state produced by
`build_index` and preserved by `add_chunks` on duplicate-free corpora:
the maps are exactly the sequential enumeration of the chunk list, the
next free position and the vector count both equal the number of stored
chunks, and the chunk identifiers are pairwise distinct. -/
def MapsInv (st : IndexerState) : Prop :=
  (∃ idx, st.index = some idx ∧ idx.ntotal = st.chunks.length) ∧
  st.next_faiss_id = (st.chunks.length : Int) ∧
  st.id_map = enumIdsFrom 0 st.chunks ∧
  st.reverse_id_map = revIdsFrom 0 st.chunks ∧
  (st.chunks.map Chunk.chunk_id).Nodup

theorem buildIndex_eq (st : IndexerState) (chunks : List Chunk) (dim : Nat)
    (hne : chunks ≠ []) (hnd : (chunks.map Chunk.chunk_id).Nodup) :
    buildIndex st chunks dim = .ok { st with
      index := some ⟨dim, chunks.length⟩
      chunks := chunks
      id_map := enumIdsFrom 0 chunks
      reverse_id_map := revIdsFrom 0 chunks
      next_faiss_id := (chunks.length : Int) } := by
  unfold buildIndex
  rw [if_neg (by simpa [List.isEmpty_iff] using hne)]
  rw [insertEntries_eq chunks [] [] 0 (by simp) (by simp) hnd]
  simp

theorem addChunks_eq (st : IndexerState) (idx : FaissIndex) (new : List Chunk)
    (hidx : st.index = some idx) (hne : new ≠ [])
    (hkeys : ∀ p ∈ st.id_map, p.1 < st.next_faiss_id)
    (hfresh : ∀ c ∈ new, ∀ q ∈ st.reverse_id_map, q.1 ≠ c.chunk_id)
    (hnd : (new.map Chunk.chunk_id).Nodup) :
    addChunks st new = .ok { st with
      index := some ⟨idx.dim, idx.ntotal + new.length⟩
      chunks := st.chunks ++ new
      id_map := st.id_map ++ enumIdsFrom st.next_faiss_id new
      reverse_id_map := st.reverse_id_map ++ revIdsFrom st.next_faiss_id new
      next_faiss_id := st.next_faiss_id + (new.length : Int) } := by
  have hne' : new.isEmpty = false := by
    cases new with
    | nil => exact absurd rfl hne
    | cons a l => rfl
  have hmaps := insertEntries_eq new st.id_map st.reverse_id_map
    st.next_faiss_id hkeys hfresh hnd
  unfold addChunks
  rw [hidx]
  simp [hne', hmaps]

theorem saveUpTo_four (st : IndexerState) (now : String) (dir : SnapshotDir) :
    saveUpTo st now dir 4 =
      { indexFile := st.index
        chunksFile := some st.chunks
        idMapFile := some ⟨st.id_map, st.reverse_id_map, st.next_faiss_id⟩
        metaFile := some ⟨st.embedding_config.model_name,
          st.embedding_config.dimension, st.embedding_config.normalize,
          st.index_config.index_type, (st.index.map FaissIndex.ntotal).getD 0,
          now, st.embedding_config.api_base_url⟩ } := rfl

/-- Claim C4: after a successful build, after an incremental add on a
well-formed state, and across a save/load cycle, the dense positions are
exactly `0 .. n-1`, new positions extend the old map past the previous
`next_faiss_id` (strictly increasing, never reused), the next free
position equals the number of fragment records which equals the number of
indexed vectors, and the forward and reverse maps are mutually inverse
(a bijection). -/
theorem c4_positions_bijection_counts :
    (∀ (st : IndexerState) (chunks : List Chunk) (dim : Nat),
      chunks ≠ [] → (chunks.map Chunk.chunk_id).Nodup →
      ∃ st', buildIndex st chunks dim = .ok st' ∧ MapsInv st' ∧
        st'.id_map.map Prod.fst =
          (List.range st'.chunks.length).map (fun i : ℕ => (i : Int)) ∧
        st'.next_faiss_id = (st'.chunks.length : Int) ∧
        (∃ idx, st'.index = some idx ∧ idx.ntotal = st'.chunks.length) ∧
        (∀ (p : Int) (cid : String),
          dictGet st'.id_map p = some cid ↔
            dictGet st'.reverse_id_map cid = some p)) ∧
    (∀ (st : IndexerState) (new : List Chunk),
      MapsInv st → new ≠ [] →
      ((st.chunks ++ new).map Chunk.chunk_id).Nodup →
      ∃ st', addChunks st new = .ok st' ∧ MapsInv st' ∧
        st'.id_map = st.id_map ++ enumIdsFrom st.next_faiss_id new ∧
        (∀ p ∈ enumIdsFrom st.next_faiss_id new, st.next_faiss_id ≤ p.1) ∧
        st'.id_map.map Prod.fst =
          (List.range st'.chunks.length).map (fun i : ℕ => (i : Int)) ∧
        st'.next_faiss_id = (st'.chunks.length : Int) ∧
        (∃ idx, st'.index = some idx ∧ idx.ntotal = st'.chunks.length) ∧
        (∀ (p : Int) (cid : String),
          dictGet st'.id_map p = some cid ↔
            dictGet st'.reverse_id_map cid = some p)) ∧
    (∀ (st : IndexerState) (now : String) (dir : SnapshotDir),
      MapsInv st →
      ∃ st', loadIndex {} (saveUpTo st now dir 4) = .ok st' ∧
        st'.chunks = st.chunks ∧ st'.id_map = st.id_map ∧
        st'.reverse_id_map = st.reverse_id_map ∧
        st'.next_faiss_id = st.next_faiss_id ∧ MapsInv st') := by
  refine ⟨?_, ?_, ?_⟩
  · intro st chunks dim hne hnd
    refine ⟨_, buildIndex_eq st chunks dim hne hnd, ?_, ?_, ?_, ?_, ?_⟩
    · exact ⟨⟨⟨dim, chunks.length⟩, rfl, rfl⟩, rfl, rfl, rfl, hnd⟩
    · simpa using enumIdsFrom_keys chunks 0
    · rfl
    · exact ⟨⟨dim, chunks.length⟩, rfl, rfl⟩
    · exact fun p cid => enum_rev_bijection chunks hnd 0 p cid
  · intro st new hinv hne hnd
    obtain ⟨⟨idx, hidx, hnt⟩, hnext, hidm, hrev, hndold⟩ := hinv
    have hndnew : (new.map Chunk.chunk_id).Nodup := by
      rw [List.map_append] at hnd
      exact (List.nodup_append.mp hnd).2.1
    have hdisj : ∀ a ∈ st.chunks.map Chunk.chunk_id,
        ∀ b ∈ new.map Chunk.chunk_id, a ≠ b := by
      rw [List.map_append] at hnd
      intro a ha b hb heq
      exact (List.nodup_append.mp hnd).2.2 ha (heq ▸ hb)
    have hkeys : ∀ p ∈ st.id_map, p.1 < st.next_faiss_id := by
      intro p hp
      rw [hidm] at hp
      have := (mem_enumIdsFrom st.chunks 0 p hp).2.1
      rw [hnext]
      omega
    have hfresh : ∀ c ∈ new, ∀ q ∈ st.reverse_id_map, q.1 ≠ c.chunk_id := by
      intro c hc q hq
      rw [hrev] at hq
      have hqmem := (mem_revIdsFrom st.chunks 0 q hq).2
      exact hdisj q.1 hqmem c.chunk_id (List.mem_map_of_mem Chunk.chunk_id hc)
    have hidm' : st.id_map ++ enumIdsFrom st.next_faiss_id new =
        enumIdsFrom 0 (st.chunks ++ new) := by
      rw [enumIdsFrom_append st.chunks new 0, hidm, hnext]
      simp
    have hrev' : st.reverse_id_map ++ revIdsFrom st.next_faiss_id new =
        revIdsFrom 0 (st.chunks ++ new) := by
      rw [revIdsFrom_append st.chunks new 0, hrev, hnext]
      simp
    have hnextlen : st.next_faiss_id + (new.length : Int) =
        ((st.chunks ++ new).length : Int) := by
      rw [hnext]
      simp only [List.length_append]
      push_cast
      omega
    refine ⟨_, addChunks_eq st idx new hidx hne hkeys hfresh hndnew,
      ?_, rfl, ?_, ?_, ?_, ?_, ?_⟩
    · exact ⟨⟨⟨idx.dim, idx.ntotal + new.length⟩, rfl, by simp [hnt]⟩,
        hnextlen, hidm', hrev', hnd⟩
    · intro p hp
      exact (mem_enumIdsFrom new st.next_faiss_id p hp).1
    · show (st.id_map ++ enumIdsFrom st.next_faiss_id new).map Prod.fst = _
      rw [hidm']
      simpa using enumIdsFrom_keys (st.chunks ++ new) 0
    · exact hnextlen
    · exact ⟨⟨idx.dim, idx.ntotal + new.length⟩, rfl, by simp [hnt]⟩
    · intro p cid
      show dictGet (st.id_map ++ enumIdsFrom st.next_faiss_id new) p = some cid ↔
        dictGet (st.reverse_id_map ++ revIdsFrom st.next_faiss_id new) cid = some p
      rw [hidm', hrev']
      exact enum_rev_bijection (st.chunks ++ new) hnd 0 p cid
  · intro st now dir hinv
    obtain ⟨⟨idx, hidx, hnt⟩, hnext, hidm, hrev, hndold⟩ := hinv
    rw [saveUpTo_four]
    unfold loadIndex
    rw [hidx]
    exact ⟨_, rfl, rfl, rfl, rfl, rfl,
      ⟨idx, rfl, hnt⟩, hnext, hidm, hrev, hndold⟩

/-! ## Persistence without integrity checking (C2, C6) and duplicate
identifiers (C5) -/

theorem dictGet_dictSet_self {α β : Type} [DecidableEq α] (l : List (α × β))
    (k : α) (v : β) : dictGet (dictSet l k v) k = some v := by
  unfold dictSet
  by_cases h : l.any (fun p => p.1 = k) = true
  · rw [if_pos h]
    induction l with
    | nil => simp at h
    | cons a l ih =>
      by_cases hk : a.1 = k
      · simp [dictGet, List.find?, hk]
      · have h' : l.any (fun p => p.1 = k) = true := by
          rcases List.any_eq_true.mp h with ⟨p, hp, hpk⟩
          rcases List.mem_cons.mp hp with rfl | hpl
          · exact absurd (by simpa using hpk) hk
          · exact List.any_eq_true.mpr ⟨p, hpl, hpk⟩
        simpa [dictGet, List.find?, hk] using ih h'
  · rw [if_neg h]
    have h' : ∀ p ∈ l, ¬(p.1 = k) := by
      intro p hp hk
      exact h (List.any_eq_true.mpr ⟨p, hp, by simpa using hk⟩)
    clear h
    revert h'
    induction l with
    | nil =>
      intro _
      simp [dictGet, List.find?]
    | cons a l ih =>
      intro h'
      have ha : ¬(a.1 = k) := h' a (List.mem_cons_self a l)
      rw [List.cons_append]
      simpa [dictGet, List.find?, ha] using
        ih (fun p hp => h' p (List.mem_cons_of_mem a hp))

/-- Claim C2 (amended behaviour): `load_index` performs no cross-artifact
count validation — whenever all four artifact files are present, the load
succeeds and installs the file contents wholesale, whatever the counts. -/
theorem c2_amended_load_unchecked :
    ∀ (st : IndexerState) (idx : FaissIndex) (cs : List Chunk)
      (im : IdMapFile) (m : MetaFile) (dir : SnapshotDir),
      dir.indexFile = some idx → dir.chunksFile = some cs →
      dir.idMapFile = some im → dir.metaFile = some m →
      loadIndex st dir = .ok { st with
        index := some idx
        chunks := cs
        id_map := im.faiss_to_chunk
        reverse_id_map := im.chunk_to_faiss
        next_faiss_id := im.next_faiss_id } := by
  intro st idx cs im m dir h1 h2 h3 h4
  unfold loadIndex
  rw [h1, h2, h3, h4]

/-- The three seeded fragments of the spec's concrete scenario, reused as
concrete test data. -/
def chunkA : Chunk := ⟨"chunk_0001", "请假3天由主管审批", []⟩

def chunkB : Chunk := ⟨"chunk_0002", "请假超过7天需HR审批", []⟩

def chunkA2 : Chunk := ⟨"chunk_0001", "事假需提前3天申请", []⟩

/-- A snapshot whose three counts disagree: 2 vectors, 1 fragment record,
3 identity-map entries. -/
def dirBad : SnapshotDir :=
  { indexFile := some ⟨1024, 2⟩
    chunksFile := some [chunkA]
    idMapFile := some ⟨[(0, "chunk_0001"), (1, "chunk_0002"), (2, "chunk_0003")],
      [("chunk_0001", 0), ("chunk_0002", 1), ("chunk_0003", 2)], 3⟩
    metaFile := some ⟨"text-embedding-v3", 1024, true, "IndexFlatIP", 2,
      "2024-01-01T00:00:00", "https://dashscope.aliyuncs.com/compatible-mode/v1"⟩ }

/-- Claim C2 is false on the code: loading a snapshot whose vector count
(2), fragment-record count (1) and identity-map size (3) pairwise disagree
succeeds instead of failing with an integrity error. -/
theorem c2_counterexample_mismatched_load_succeeds :
    ∃ st', loadIndex {} dirBad = .ok st' ∧
      st'.index = some ⟨1024, 2⟩ ∧ st'.chunks.length = 1 ∧
      st'.id_map.length = 3 ∧ (2 : ℕ) ≠ 1 ∧ (1 : ℕ) ≠ 3 :=
  ⟨_, rfl, rfl, rfl, rfl, by decide, by decide⟩

theorem c2_amended_witness :
    dirBad.indexFile = some ⟨1024, 2⟩ ∧ dirBad.chunksFile = some [chunkA] ∧
    loadIndex {} dirBad = .ok { ({} : IndexerState) with
      index := some ⟨1024, 2⟩
      chunks := [chunkA]
      id_map := [(0, "chunk_0001"), (1, "chunk_0002"), (2, "chunk_0003")]
      reverse_id_map := [("chunk_0001", 0), ("chunk_0002", 1), ("chunk_0003", 2)]
      next_faiss_id := 3 } :=
  ⟨rfl, rfl, c2_amended_load_unchecked {} ⟨1024, 2⟩ [chunkA] _ _ dirBad rfl rfl rfl rfl⟩

/-- The state `build_index` produces from the one-fragment corpus. -/
def stA : IndexerState :=
  { index := some ⟨1024, 1⟩
    chunks := [chunkA]
    id_map := [(0, "chunk_0001")]
    reverse_id_map := [("chunk_0001", 0)]
    next_faiss_id := 1 }

/-- The state `build_index` produces from the two-fragment corpus. -/
def stB : IndexerState :=
  { index := some ⟨1024, 2⟩
    chunks := [chunkA, chunkB]
    id_map := [(0, "chunk_0001"), (1, "chunk_0002")]
    reverse_id_map := [("chunk_0001", 0), ("chunk_0002", 1)]
    next_faiss_id := 2 }

/-- The state `add_chunks` produces when `chunk_0001` is added to `stA`
again: the reverse entry is overwritten, the stale forward entry stays. -/
def stADup : IndexerState :=
  { index := some ⟨1024, 2⟩
    chunks := [chunkA, chunkA2]
    id_map := [(0, "chunk_0001"), (1, "chunk_0001")]
    reverse_id_map := [("chunk_0001", 1)]
    next_faiss_id := 2 }

/-- Claim C5 is false on the code: adding a fragment whose identifier is
already mapped does not fail with a duplicate-identifier error — it
succeeds and mutates the index, fragment store and both maps. -/
theorem c5_counterexample_duplicate_accepted :
    dictGet stA.reverse_id_map "chunk_0001" = some 0 ∧
    addChunks stA [chunkA2] = .ok stADup ∧ stADup ≠ stA :=
  ⟨rfl, rfl, by decide⟩

/-- Claim C5 (amended behaviour): adding a chunk whose identifier is
already mapped succeeds: the chunk is appended under a fresh dense
position, the reverse-map entry is overwritten to that new position, and
the stale forward entry remains. -/
theorem c5_amended_duplicate_overwrites :
    ∀ (st : IndexerState) (idx : FaissIndex) (c : Chunk) (p : Int),
      st.index = some idx →
      dictGet st.reverse_id_map c.chunk_id = some p →
      ∃ st', addChunks st [c] = .ok st' ∧
        st'.chunks = st.chunks ++ [c] ∧
        st'.next_faiss_id = st.next_faiss_id + 1 ∧
        st'.id_map = dictSet st.id_map st.next_faiss_id c.chunk_id ∧
        st'.reverse_id_map = dictSet st.reverse_id_map c.chunk_id st.next_faiss_id ∧
        dictGet st'.reverse_id_map c.chunk_id = some st.next_faiss_id := by
  intro st idx c p hidx _hdup
  refine ⟨{ st with
      index := some ⟨idx.dim, idx.ntotal + 1⟩
      chunks := st.chunks ++ [c]
      id_map := dictSet st.id_map st.next_faiss_id c.chunk_id
      reverse_id_map := dictSet st.reverse_id_map c.chunk_id st.next_faiss_id
      next_faiss_id := st.next_faiss_id + 1 }, ?_, rfl, rfl, rfl, rfl,
    dictGet_dictSet_self st.reverse_id_map c.chunk_id st.next_faiss_id⟩
  unfold addChunks
  rw [hidx]
  simp [insertEntries]

theorem c5_amended_witness :
    stA.index = some ⟨1024, 1⟩ ∧
    dictGet stA.reverse_id_map "chunk_0001" = some 0 ∧
    ∃ st', addChunks stA [chunkA2] = .ok st' ∧
      st'.chunks = stA.chunks ++ [chunkA2] ∧
      st'.next_faiss_id = stA.next_faiss_id + 1 ∧
      st'.id_map = dictSet stA.id_map stA.next_faiss_id "chunk_0001" ∧
      st'.reverse_id_map = dictSet stA.reverse_id_map "chunk_0001" stA.next_faiss_id ∧
      dictGet st'.reverse_id_map "chunk_0001" = some stA.next_faiss_id :=
  ⟨rfl, rfl, c5_amended_duplicate_overwrites stA ⟨1024, 1⟩ chunkA2 0 rfl rfl⟩

/-- The directory left behind when saving `stB` crashes after its first
artifact write, on top of a completed save of `stA`. -/
def dirCrash : SnapshotDir := saveUpTo stB "t2" (saveUpTo stA "t1" {} 4) 1

/-- Claim C6 is false on the code: `save_index` writes each artifact
directly to its final path, so a failure after the first write of a second
save leaves a mixed snapshot (index of `stB`, fragments of `stA`) that the
next load accepts — it passes the (non-existent) integrity check while its
vector count (2) disagrees with its fragment count (1). -/
theorem c6_counterexample_partial_save_loads :
    ∃ st', loadIndex {} dirCrash = .ok st' ∧
      st'.index = some ⟨1024, 2⟩ ∧ st'.chunks = [chunkA] ∧
      st'.chunks.length ≠ (2 : ℕ) :=
  ⟨_, rfl, rfl, rfl, by decide⟩

/-- Claim C6 (amended behaviour): the four artifact writes go directly to
their final paths, in order, with no temporary-path/rename commit; a
failure partway through a save over an existing snapshot leaves a mixed
directory whose subsequent load nevertheless succeeds, because `load_index`
validates nothing. -/
theorem c6_amended_save_in_place :
    ∀ (s1 s2 : IndexerState) (idx2 : FaissIndex) (n1 n2 : String),
      s2.index = some idx2 →
      saveUpTo s2 n2 (saveUpTo s1 n1 {} 4) 1 =
        { saveUpTo s1 n1 {} 4 with indexFile := some idx2 } ∧
      ∃ st', loadIndex {} (saveUpTo s2 n2 (saveUpTo s1 n1 {} 4) 1) = .ok st' ∧
        st'.index = some idx2 ∧ st'.chunks = s1.chunks := by
  intro s1 s2 idx2 n1 n2 hidx
  have hstep : ∀ d : SnapshotDir,
      saveUpTo s2 n2 d 1 = { d with indexFile := s2.index } := fun d => rfl
  constructor
  · rw [hstep, hidx]
  · rw [hstep, hidx, saveUpTo_four]
    exact ⟨_, rfl, rfl, rfl⟩

/-! ## Citation validation (C1) and parse-failure fallback (C9) -/

theorem pyEqStr_eq_true {j : Json} {s : String} (h : pyEqStr j s = true) :
    j = Json.str s := by
  cases j with
  | null => simp [pyEqStr] at h
  | bool b => simp [pyEqStr] at h
  | num q => simp [pyEqStr] at h
  | str t =>
    simp only [pyEqStr, beq_iff_eq] at h
    rw [h]
  | arr l => simp [pyEqStr] at h
  | obj f => simp [pyEqStr] at h

/-- Every `Except.ok` result of `_parse_and_validate_response` has the
validated shape: the citation list is the model-reported list filtered
against the available identifiers, the sources are the retrieved chunks
filtered to the surviving citations, and `has_context` is true. -/
theorem parseAndValidate_ok_shape (decode : String → Option Json)
    (raw : String) (ids : List String) (chunks : List RChunk)
    (res : QAResult)
    (hok : parseAndValidateResponse decode raw ids chunks = .ok res) :
    ∃ citations : List Json,
      res.citations =
        citations.filter (fun cid => ids.any (fun s => pyEqStr cid s)) ∧
      res.sources =
        (chunks.filter
          (fun c => res.citations.any (fun v => pyEqStr v c.chunk_id))).map
          (fun c => Source.mk c.chunk_id c.score (truncPreview c.text) c.metadata) ∧
      res.has_context = true := by
  unfold parseAndValidateResponse at hok
  dsimp only at hok
  rcases hd : decode (stripFences raw) with _ | j
  · rw [hd] at hok
    try dsimp only at hok
    simp only [List.any_nil, Bool.false_eq_true, if_false, List.filter_nil] at hok
    have hres : (⟨.str raw, [],
        (chunks.filter (fun c => ([] : List Json).any (fun v => pyEqStr v c.chunk_id))).map
          (fun c => Source.mk c.chunk_id c.score (truncPreview c.text) c.metadata),
        true⟩ : QAResult) = res := by
      exact Except.ok.inj hok
    subst hres
    refine ⟨[], by simp, by simp, rfl⟩
  · rw [hd] at hok
    try dsimp only at hok
    cases j with
    | null => exact absurd hok (by simp)
    | bool b => exact absurd hok (by simp)
    | num q => exact absurd hok (by simp)
    | str t => exact absurd hok (by simp)
    | arr elems =>
      exact absurd hok (by simp)
    | obj fields =>
      try dsimp only at hok
      rcases hit : pyIter ((dictGet fields "citations").getD (.arr [])) with _ | cs
      · rw [hit] at hok
        exact absurd hok (by simp)
      · rw [hit] at hok
        try dsimp only at hok
        by_cases hh : cs.any (fun c => !pyHashable c) = true
        · rw [if_pos hh] at hok
          exact absurd hok (by simp)
        · rw [if_neg hh] at hok
          have hres := Except.ok.inj hok
          subst hres
          exact ⟨cs, rfl, rfl, rfl⟩

/-- Claim C1: every citation surviving validation is one of the retrieved
chunk identifiers, every source entry's identifier is both retrieved and
among the surviving citations, and the same holds of the result `ask`
returns for its query's retrieved set. -/
theorem c1_citations_subset_of_retrieved :
    (∀ (decode : String → Option Json) (raw : String) (ids : List String)
      (chunks : List RChunk) (res : QAResult),
      parseAndValidateResponse decode raw ids chunks = .ok res →
      (∀ c ∈ res.citations, ∃ s, c = Json.str s ∧ s ∈ ids) ∧
      (∀ src ∈ res.sources, src.chunk_id ∈ ids ∧
        ∃ c ∈ res.citations, c = Json.str src.chunk_id)) ∧
    (∀ (st : IndexerState) (hits : List (Int × ℚ))
      (llm : List (String × String) → String) (decode : String → Option Json)
      (question : String) (cfg : RAGConfig) (retrieved : List RChunk)
      (res : QAResult) (n : ℕ),
      retrieveChunks st hits cfg = .ok retrieved →
      ask st hits llm decode question cfg = .ok (res, n) →
      ∀ c ∈ res.citations, ∃ s, c = Json.str s ∧
        s ∈ retrieved.map RChunk.chunk_id) := by
  have part1 : ∀ (decode : String → Option Json) (raw : String)
      (ids : List String) (chunks : List RChunk) (res : QAResult),
      parseAndValidateResponse decode raw ids chunks = .ok res →
      (∀ c ∈ res.citations, ∃ s, c = Json.str s ∧ s ∈ ids) ∧
      (∀ src ∈ res.sources, src.chunk_id ∈ ids ∧
        ∃ c ∈ res.citations, c = Json.str src.chunk_id) := by
    intro decode raw ids chunks res hok
    obtain ⟨cs, hcit, hsrc, _⟩ := parseAndValidate_ok_shape decode raw ids chunks res hok
    have hmemcit : ∀ c ∈ res.citations, ∃ s, c = Json.str s ∧ s ∈ ids := by
      intro c hc
      rw [hcit] at hc
      obtain ⟨hcm, hpred⟩ := List.mem_filter.mp hc
      obtain ⟨s, hs, he⟩ := List.any_eq_true.mp (by simpa using hpred)
      exact ⟨s, pyEqStr_eq_true (by simpa using he), hs⟩
    refine ⟨hmemcit, ?_⟩
    intro src hsrcm
    rw [hsrc] at hsrcm
    obtain ⟨c0, hc0, hmk⟩ := List.mem_map.mp hsrcm
    obtain ⟨hc0m, hpred⟩ := List.mem_filter.mp hc0
    obtain ⟨v, hv, he⟩ := List.any_eq_true.mp (by simpa using hpred)
    have hveq : v = Json.str c0.chunk_id := pyEqStr_eq_true (by simpa using he)
    obtain ⟨s, hvs, hs⟩ := hmemcit v hv
    have hs0 : s = c0.chunk_id := by
      rw [hveq] at hvs
      exact (Json.str.inj hvs).symm
    subst hmk
    constructor
    · show c0.chunk_id ∈ ids
      rw [← hs0]
      exact hs
    · exact ⟨v, hv, hveq⟩
  refine ⟨part1, ?_⟩
  intro st hits llm decode question cfg retrieved res n hrc hask c hc
  unfold ask at hask
  simp only [hrc] at hask
  by_cases hemp : retrieved.isEmpty = true
  · rw [if_pos hemp] at hask
    have : (noContextResult, 0) = (res, n) := by simpa using hask
    have hres : noContextResult = res := congrArg Prod.fst this
    rw [← hres] at hc
    simp [noContextResult] at hc
  · rw [if_neg hemp] at hask
    rcases hp : parseAndValidateResponse decode
        (llm [("system", ragSystemPrompt),
              ("user", ragUserPrompt (buildContext retrieved) question)])
        (retrieved.map (fun c => c.chunk_id)) retrieved with e | r
    · rw [hp] at hask
      exact absurd hask (by simp)
    · rw [hp] at hask
      have : (r, 1) = (res, n) := by simpa using hask
      have hres : r = res := congrArg Prod.fst this
      rw [← hres] at hc
      obtain ⟨s, hcs, hsmem⟩ := (part1 _ _ _ _ _ hp).1 c hc
      refine ⟨s, hcs, ?_⟩
      simpa using hsmem

/-- Claim C9 is false on the code as stated: a model response that decodes
as valid JSON but not as a JSON object — here the array `[]` — fails the
structured schema, yet `ask` aborts with an uncaught `AttributeError`
(raised by `parsed.get` on a list) instead of falling back to the raw
text. -/
theorem c9_counterexample_nonobject_json_aborts :
    ask stA [(0, 1)] (fun _ => "[]") (fun _ => some (Json.arr []))
      "q" { score_threshold := 0 } = .error .attributeError := rfl

/-- Claim C9 (amended): only a response that fails to parse as JSON at all
(after code-fence stripping) triggers the fallback — then the raw text
becomes the answer, citations and sources are empty, and `has_context`
stays true; `ask` returns this result after its single generation call. -/
theorem c9_amended_json_parse_failure_falls_back :
    (∀ (decode : String → Option Json) (raw : String) (ids : List String)
      (chunks : List RChunk),
      decode (stripFences raw) = none →
      parseAndValidateResponse decode raw ids chunks =
        .ok ⟨.str raw, [], [], true⟩) ∧
    (∀ (st : IndexerState) (hits : List (Int × ℚ))
      (llm : List (String × String) → String) (decode : String → Option Json)
      (question : String) (cfg : RAGConfig) (retrieved : List RChunk),
      retrieveChunks st hits cfg = .ok retrieved →
      retrieved.isEmpty = false →
      decode (stripFences (llm [("system", ragSystemPrompt),
        ("user", ragUserPrompt (buildContext retrieved) question)])) = none →
      ask st hits llm decode question cfg =
        .ok (⟨.str (llm [("system", ragSystemPrompt),
          ("user", ragUserPrompt (buildContext retrieved) question)]),
          [], [], true⟩, 1)) := by
  have part1 : ∀ (decode : String → Option Json) (raw : String)
      (ids : List String) (chunks : List RChunk),
      decode (stripFences raw) = none →
      parseAndValidateResponse decode raw ids chunks =
        .ok ⟨.str raw, [], [], true⟩ := by
    intro decode raw ids chunks hd
    unfold parseAndValidateResponse
    try dsimp only
    rw [hd]
    try dsimp only
    simp
  refine ⟨part1, ?_⟩
  intro st hits llm decode question cfg retrieved hrc hne hd
  unfold ask
  simp only [hrc]
  rw [hne]
  simp only [Bool.false_eq_true, if_false]
  rw [part1 decode _ (retrieved.map (fun c => c.chunk_id)) retrieved hd]

/-! ## Concrete witnesses -/

/-- A decoder standing for `json.loads` succeeding on a structured object
response citing one retrieved and one hallucinated identifier. -/
def d1 : String → Option Json := fun _ =>
  some (.obj [("answer", .str "ok [chunk_0001]"),
    ("citations", .arr [.str "chunk_0001", .str "chunk_9999"])])

/-- The validated result of `d1`'s response against id set `chunk_0001`
with no retrieved chunks. -/
def r1 : QAResult := ⟨.str "ok [chunk_0001]", [.str "chunk_0001"], [], true⟩

/-- The retrieval result for the single-fragment state `stA` at hit
`(0, 1)`. -/
def retrieved1 : List RChunk := [⟨"chunk_0001", round4 1, "请假3天由主管审批", []⟩]

/-- The validated result of `d1`'s response when `retrieved1` was
retrieved. -/
def r2 : QAResult := ⟨.str "ok [chunk_0001]", [.str "chunk_0001"],
  [⟨"chunk_0001", round4 1, "请假3天由主管审批", []⟩], true⟩

/-- `RAGConfig` with the threshold lowered to zero. -/
def cfg0 : RAGConfig := { score_threshold := 0 }

/-- `RAGConfig` with threshold one. -/
def cfg1 : RAGConfig := { score_threshold := 1 }

theorem c1_witness :
    parseAndValidateResponse d1 "r" ["chunk_0001"] [] = .ok r1 ∧
    (∀ c ∈ r1.citations, ∃ s, c = Json.str s ∧ s ∈ ["chunk_0001"]) ∧
    (∀ src ∈ r1.sources, src.chunk_id ∈ ["chunk_0001"] ∧
      ∃ c ∈ r1.citations, c = Json.str src.chunk_id) ∧
    retrieveChunks stA [(0, 1)] cfg0 = .ok retrieved1 ∧
    ask stA [(0, 1)] (fun _ => "r") d1 "q" cfg0 = .ok (r2, 1) ∧
    (∀ c ∈ r2.citations, ∃ s, c = Json.str s ∧
      s ∈ retrieved1.map RChunk.chunk_id) := by
  have h1 := c1_citations_subset_of_retrieved.1 d1 "r" ["chunk_0001"] [] r1 rfl
  have h2 := c1_citations_subset_of_retrieved.2 stA [(0, 1)] (fun _ => "r") d1
    "q" cfg0 retrieved1 r2 1 rfl rfl
  exact ⟨rfl, h1.1, h1.2, rfl, rfl, h2⟩

theorem c3_witness :
    stA.index = some ⟨1024, 1⟩ ∧
    (∀ h ∈ [((-1 : Int), (9 : ℚ)), (0, 0)],
      h.1 = -1 ∨ h.2 < cfg1.score_threshold) ∧
    ask stA [(-1, 9), (0, 0)] (fun _ => "x") (fun _ => none) "q" cfg1 =
      .ok (noContextResult, 0) := by
  have hb : ∀ h ∈ [((-1 : Int), (9 : ℚ)), (0, 0)],
      h.1 = -1 ∨ h.2 < cfg1.score_threshold := by decide
  exact ⟨rfl, hb,
    c3_no_context_no_generation stA ⟨1024, 1⟩ [(-1, 9), (0, 0)]
      (fun _ => "x") (fun _ => none) "q" cfg1 rfl hb⟩

theorem c4_witness :
    ([chunkA, chunkB] ≠ ([] : List Chunk)) ∧
    ([chunkA, chunkB].map Chunk.chunk_id).Nodup ∧
    MapsInv stA ∧
    ((stA.chunks ++ [chunkB]).map Chunk.chunk_id).Nodup ∧
    (∃ st', buildIndex {} [chunkA, chunkB] 1024 = .ok st' ∧ MapsInv st') ∧
    (∃ st', addChunks stA [chunkB] = .ok st' ∧ MapsInv st' ∧
      st'.id_map = stA.id_map ++ enumIdsFrom stA.next_faiss_id [chunkB]) ∧
    (∃ st', loadIndex {} (saveUpTo stA "t" {} 4) = .ok st' ∧
      st'.id_map = stA.id_map ∧ MapsInv st') := by
  have hinv : MapsInv stA := ⟨⟨⟨1024, 1⟩, rfl, rfl⟩, rfl, rfl, rfl, by decide⟩
  obtain ⟨s1, h1, hinv1, _⟩ :=
    c4_positions_bijection_counts.1 {} [chunkA, chunkB] 1024 (by decide) (by decide)
  obtain ⟨s2, h2, hinv2, hid2, _⟩ :=
    c4_positions_bijection_counts.2.1 stA [chunkB] hinv (by decide) (by decide)
  obtain ⟨s3, h3, hch3, hid3, hrev3, hnext3, hinv3⟩ :=
    c4_positions_bijection_counts.2.2 stA "t" {} hinv
  exact ⟨by decide, by decide, hinv, by decide, ⟨s1, h1, hinv1⟩,
    ⟨s2, h2, hinv2, hid2⟩, ⟨s3, h3, hid3, hinv3⟩⟩

theorem c7_witness :
    (∀ h ∈ [((0 : Int), (1 : ℚ)), (1, 0)],
      validHit [(0, "a"), (1, "b")] h = true) ∧
    searchFilter [(0, "a"), (1, "b")] (some 1) [(0, 1), (1, 0)] =
      ([((0 : Int), (1 : ℚ)), (1, 0)].filter (fun h => decide ((1 : ℚ) ≤ h.2))).map
        (fun h => ⟨(dictGet [(0, "a"), (1, "b")] h.1).getD "", round4 h.2⟩) ∧
    searchWithChunks stA [(0, 1)] (some cfg1.score_threshold) = .ok retrieved1 ∧
    retrieveChunks stA [(0, 1)] cfg1 = .ok (retrieved1.take cfg1.max_chunks) ∧
    (∀ h ∈ [((0 : Int), (0 : ℚ))], h.2 < (1 : ℚ)) ∧
    search stA [(0, 0)] (some 1) = .ok [] := by
  refine ⟨by decide, ?_, rfl, ?_, by decide, ?_⟩
  · exact c7_threshold_exclusion_truncation_empty.1 [(0, "a"), (1, "b")] 1
      [(0, 1), (1, 0)] (by decide)
  · exact c7_threshold_exclusion_truncation_empty.2.1 stA [(0, 1)] cfg1
      retrieved1 rfl
  · exact c7_threshold_exclusion_truncation_empty.2.2 stA ⟨1024, 1⟩
      [(0, 0)] 1 rfl (by decide)

theorem c8_witness :
    ((1 : ℚ) < 2) ∧
    search stB [(0, 2), (1, 1)] (some 1) =
      .ok [⟨"chunk_0001", round4 2⟩, ⟨"chunk_0002", round4 1⟩] ∧
    search stB [(0, 2), (1, 1)] (some 2) = .ok [⟨"chunk_0001", round4 2⟩] ∧
    (∀ r ∈ [SearchHit.mk "chunk_0001" (round4 2)],
      r ∈ [SearchHit.mk "chunk_0001" (round4 2), ⟨"chunk_0002", round4 1⟩]) := by
  refine ⟨by decide, rfl, rfl, ?_⟩
  exact c8_threshold_monotone stB [(0, 2), (1, 1)] 1 2 _ _ (by decide) rfl rfl

theorem c9_amended_witness :
    retrieveChunks stA [(0, 1)] cfg0 = .ok retrieved1 ∧
    retrieved1.isEmpty = false ∧
    ask stA [(0, 1)] (fun _ => "not json") (fun _ => none) "q" cfg0 =
      .ok (⟨.str "not json", [], [], true⟩, 1) := by
  refine ⟨rfl, rfl, ?_⟩
  exact c9_amended_json_parse_failure_falls_back.2 stA [(0, 1)]
    (fun _ => "not json") (fun _ => none) "q" cfg0 retrieved1 rfl rfl rfl

theorem c10_witness :
    stB.index = some ⟨1024, 2⟩ ∧
    (∀ h ∈ [((-1 : Int), (9 : ℚ)), (-1, 8)], -1 ≤ h.1) ∧
    ((∃ rs, search stB [(-1, 9), (-1, 8)] none = .ok rs ∧ rs.length ≤ 2) ∧
     (∃ rs, searchWithChunks stB [(-1, 9), (-1, 8)] none = .ok rs ∧
       rs.length ≤ 2) ∧
     ((∀ h ∈ [((-1 : Int), (9 : ℚ)), (-1, 8)], h.1 = -1) →
       search stB [(-1, 9), (-1, 8)] none = .ok [] ∧
       searchWithChunks stB [(-1, 9), (-1, 8)] none = .ok [])) :=
  ⟨rfl, by decide,
    c10_invalid_hits_skipped stB ⟨1024, 2⟩ [(-1, 9), (-1, 8)] none rfl (by decide)⟩

theorem c6_amended_witness :
    stB.index = some ⟨1024, 2⟩ ∧
    (saveUpTo stB "t2" (saveUpTo stA "t1" {} 4) 1 =
      { saveUpTo stA "t1" {} 4 with indexFile := some ⟨1024, 2⟩ } ∧
    ∃ st', loadIndex {} (saveUpTo stB "t2" (saveUpTo stA "t1" {} 4) 1) =
        .ok st' ∧
      st'.index = some ⟨1024, 2⟩ ∧ st'.chunks = stA.chunks) :=
  ⟨rfl, c6_amended_save_in_place stA stB ⟨1024, 2⟩ "t1" "t2" rfl⟩
